import Mathlib

/-!
Verification of the batch fetch-transform-archive pipeline of `src/app.py`
(bulk photo downloader).

The development shallowly embeds the two pieces of the program the claims
are about:

* `process_image` (src/app.py lines 31-73): decode, conditional
  Lanczos upscale to a 1000-pixel minimum dimension, conditional unsharp
  mask, JPEG re-encode, with a catch-all fallback that returns the original
  bytes.  PIL itself is abstracted by an oracle environment `PILEnv`
  (what bytes decode to, whether each PIL call succeeds, what the encoder
  emits); the dimension arithmetic, which Python performs in IEEE-754
  binary64, is embedded exactly by `fl53`, a rounding model of binary64
  round-to-nearest-even over the rationals.

* the Start-Download batch loop (src/app.py lines 98-125): per-entry URL
  validation, fetch, normalization, archive insertion, counters and
  progress reporting.  Network outcomes are an oracle per entry
  (`FetchOutcome`).  Python `str` cell values are modelled as `List Char`
  (a Python string is a sequence of code points).  Progress fractions are
  kept as exact rationals.
-/

/-- A byte string (`bytes` in Python): the raw payloads moving through the
pipeline.  Only identity of the payload matters to the claims. -/
abbrev ByteSeq : Type := List Nat

/-- PIL image modes relevant to `process_image`: the code tests
`img.mode in ("RGBA", "P")`; every other mode is passed through. -/
inductive Mode where
  | RGB
  | RGBA
  | P
  | other
deriving DecidableEq

/-- The observable part of a decoded PIL image: its pixel dimensions and
color mode (`img.size`, `img.mode`). -/
structure DecodedImage where
  width : Nat
  height : Nat
  mode : Mode
deriving DecidableEq

/-- An unnormalized rational: numerator over a (positive) denominator.  Used
for the exact model of the binary64 float arithmetic of `process_image`;
kept free of gcd normalization so every operation is a plain integer
computation the kernel can evaluate.  `⟨n, d⟩` denotes the rational
`n / d`. -/
structure Frac where
  num : ℤ
  den : Nat
deriving DecidableEq

/-- The rational value denoted by a `Frac`. -/
def Frac.val (q : Frac) : ℚ := (q.num : ℚ) / (q.den : ℚ)

/-- Exact product of two fractions. -/
def Frac.mul (a b : Frac) : Frac := ⟨a.num * b.num, a.den * b.den⟩

/-- Floor of a fraction (`Int.fdiv` is floor division). -/
def Frac.floor (q : Frac) : ℤ := Int.fdiv q.num (q.den : ℤ)

/-- Exact multiplication of a fraction by `2 ^ k` for an integer `k`. -/
def Frac.mulPow2 (q : Frac) (k : ℤ) : Frac :=
  if 0 ≤ k then ⟨q.num * (2 ^ k.toNat : Nat), q.den⟩
  else ⟨q.num, q.den * (2 ^ (-k).toNat : Nat)⟩

/-- The fraction `n / 2 ^ k` for an integer `n` and integer exponent `k`. -/
def Frac.intDivPow2 (n : ℤ) (k : ℤ) : Frac :=
  if 0 ≤ k then ⟨n, (2 ^ k.toNat : Nat)⟩
  else ⟨n * (2 ^ (-k).toNat : Nat), 1⟩

/-- Base-2 integer logarithm by structural recursion on a fuel argument,
kernel-evaluable. -/
def natLog2Aux : Nat → Nat → Nat
  | 0, _ => 0
  | fuel+1, n => if n < 2 then 0 else natLog2Aux fuel (n / 2) + 1

/-- `⌊log2 n⌋` for `n ≥ 1`, and `0` at `0`. -/
def natLog2 (n : Nat) : Nat := natLog2Aux n n

/-- Round a nonnegative fraction to an integer, ties to even — the rounding
used on the 53-bit significand of an IEEE-754 binary64 result.
`r = s - ⌊s⌋` has value `(s.num - ⌊s⌋ * s.den) / s.den`, so `r < 1/2` is the
integer comparison `2 * (s.num - ⌊s⌋ * s.den) < s.den`. -/
def roundHalfEven (s : Frac) : ℤ :=
  let f : ℤ := s.floor
  let rn : ℤ := s.num - f * (s.den : ℤ)
  if 2 * rn < (s.den : ℤ) then f
  else if (s.den : ℤ) < 2 * rn then f + 1
  else if f % 2 = 0 then f else f + 1

/-- Exact model of rounding a real (rational) value to the nearest IEEE-754
binary64 double, round-to-nearest ties-to-even: the significand scaled into
`[2^52, 2^53)` is rounded to an integer, ties to even.  Exact for inputs
that are 0 or at least 1 and below the overflow threshold, which covers
every value the embedded arithmetic produces (dimension and scale values
are at least 1).  CPython float arithmetic is exactly binary64 arithmetic,
so the result of each Python float operation is `fl53` of the exact
rational value of that operation. -/
def fl53 (q : Frac) : Frac :=
  let e : ℤ := (natLog2 q.floor.toNat : ℤ)
  Frac.intDivPow2 (roundHalfEven (q.mulPow2 (52 - e))) (52 - e)

/-- `min_dimension = 1000` (src/app.py line 44). -/
def min_dimension : Nat := 1000

/-- One new dimension, as Python computes it:
`int(d * scale_factor)` where `d` is an `int` and `scale_factor` a float.
The `int` is first converted to binary64 (`fl53 ⟨d, 1⟩`, exact below
`2^53`), the product is a binary64 multiplication (`fl53` of the exact
product), and `int(...)` truncates toward zero (equals the floor on the
nonnegative values arising here). -/
def scaled_dim (d : Nat) (scale : Frac) : Nat :=
  (Frac.floor (fl53 (Frac.mul (fl53 ⟨(d : ℤ), 1⟩) scale))).toNat

/-- `img.convert("RGB")` — flattens the color mode, keeps the pixel
dimensions (src/app.py line 41). -/
def convertRGB (img : DecodedImage) : DecodedImage :=
  { img with mode := Mode.RGB }

/-- `img.resize((new_width, new_height), LANCZOS)` — the result has exactly
the requested dimensions (src/app.py line 55). -/
def resizeImg (img : DecodedImage) (w h : Nat) : DecodedImage :=
  { img with width := w, height := h }

/-- `img.filter(ImageFilter.UnsharpMask(radius=2, percent=150))` — a
per-pixel filter; dimensions and mode are unchanged (src/app.py line 59). -/
def unsharpMask (img : DecodedImage) : DecodedImage := img

/-- Oracle for the PIL and codec behavior `process_image` depends on:
what `Image.open` yields on given bytes (`none` = it raised), whether the
resize / filter / save calls succeed, and which bytes the JPEG encoder
emits for a given image. -/
structure PILEnv where
  decode : ByteSeq → Option DecodedImage
  resizeOk : Bool
  filterOk : Bool
  encodeOk : Bool
  encode : DecodedImage → ByteSeq

/-- Result of `process_image` plus ghost observations of the run:
`out` is the returned byte string; `resized` / `sharpened` record whether
the resize and unsharp-mask steps ran on the returned payload; `finalImg`
is the image handed to the encoder (`none` when the fallback path returned
the original bytes). -/
structure NormResult where
  out : ByteSeq
  resized : Bool
  sharpened : Bool
  finalImg : Option DecodedImage
deriving DecidableEq

/-- The `try:` body of `process_image` after a successful `Image.open`
(src/app.py lines 40-69).  Returns `none` exactly when some step raises:
the `ZeroDivisionError` from `min_dimension / 0` when the decoded image has
a zero dimension, or a resize / filter / encode failure.  On success
returns the encoded bytes, the resize/sharpen flags and the final image. -/
def normalizeDecoded (env : PILEnv) (opened : DecodedImage) :
    Option (ByteSeq × Bool × Bool × DecodedImage) :=
    let img := if opened.mode = Mode.RGBA ∨ opened.mode = Mode.P then convertRGB opened
               else opened
    let width := img.width
    let height := img.height
    if width < min_dimension ∨ height < min_dimension then
      if min width height = 0 then
        none
      else
        let scale_factor := fl53 ⟨(min_dimension : ℤ), min width height⟩
        let new_width := scaled_dim width scale_factor
        let new_height := scaled_dim height scale_factor
        if env.resizeOk then
          if env.filterOk then
            let img2 := unsharpMask (resizeImg img new_width new_height)
            if env.encodeOk then some (env.encode img2, true, true, img2)
            else none
          else none
        else none
    else
      if env.encodeOk then some (env.encode img, false, false, img)
      else none

/-- The happy path of `process_image` as a whole: `Image.open`, then the
rest of the `try:` body. -/
def attemptNormalize (env : PILEnv) (image_bytes : ByteSeq) :
    Option (ByteSeq × Bool × Bool × DecodedImage) :=
  match env.decode image_bytes with
  | none => none
  | some opened => normalizeDecoded env opened

/-- `process_image` (src/app.py lines 31-73): run the happy path inside the
`try:`; any exception falls to the `except:` which returns the original
`image_bytes`. -/
def process_image (env : PILEnv) (image_bytes : ByteSeq) : NormResult :=
  match attemptNormalize env image_bytes with
  | some (out, r, s, img) => ⟨out, r, s, some img⟩
  | none => ⟨image_bytes, false, false, none⟩

/-! ## The Start-Download batch loop (src/app.py lines 75-125) -/

/-- A raw cell value from the chosen spreadsheet column (after `dropna`):
either a Python `str` (a sequence of code points, modelled as `List Char`)
or a value of some other type (a number, a timestamp, ...). -/
inductive Cell where
  | str (chars : List Char)
  | nonStr
deriving DecidableEq

/-- The URL validation of src/app.py line 106: the entry is fetched only
when `isinstance(url, str) and url.startswith(('http:', 'https:'))`. -/
def fetchable : Cell → Bool
  | Cell.str s => List.isPrefixOf "http:".data s || List.isPrefixOf "https:".data s
  | Cell.nonStr => false

/-- Oracle for the network outcome of `requests.get(url, timeout=10)` plus
`response.raise_for_status()` on one entry: the body bytes on a 2xx
response, `httpError` when `raise_for_status` raises (non-2xx status), or
`transportError` when `requests.get` itself raises (DNS failure, refused
connection, timeout, malformed URL). -/
inductive FetchOutcome where
  | ok (content : ByteSeq)
  | httpError
  | transportError
deriving DecidableEq

/-- One input entry: the raw cell value together with the (oracle) network
outcome its URL would produce if fetched. -/
structure Entry where
  cell : Cell
  net : FetchOutcome
deriving DecidableEq

/-- The mutable state of the batch loop: the two counters
(`valid_count`, `error_count`), the zip archive contents in insertion order
(`zf.writestr` calls), the fractions passed to `progress_bar.progress`
(exact rationals), and the 0-based indices of entries for which
`requests.get` was invoked. -/
structure BatchState where
  valid_count : Nat
  error_count : Nat
  archive : List (List Char × ByteSeq)
  progressLog : List ℚ
  fetchLog : List Nat
deriving DecidableEq

/-- The state at the top of the loop (src/app.py lines 96-101). -/
def initialState : BatchState := ⟨0, 0, [], [], []⟩

/-- The decimal digit character for `d < 10`. -/
def digitChar (d : Nat) : Char := Char.ofNat (48 + d)

/-- Decimal digits of `n`, least significant first, by structural recursion
on a fuel argument (kernel-evaluable; adequate whenever `n ≤ fuel`). -/
def natDigitsAux : Nat → Nat → List Nat
  | _, 0 => []
  | 0, _+1 => []
  | fuel+1, n+1 => (n+1) % 10 :: natDigitsAux fuel ((n+1) / 10)

/-- Decimal digits of `n`, least significant first (empty at 0). -/
def natDigits (n : Nat) : List Nat := natDigitsAux n n

/-- Value of a little-endian decimal digit list. -/
def unDigits : List Nat → Nat
  | [] => 0
  | d :: rest => d + 10 * unDigits rest

/-- Decimal numeral of `n`, most significant digit first (empty at 0, which
never occurs: the loop uses 1-based indices). -/
def natChars (n : Nat) : List Char := (natDigits n).reverse.map digitChar

/-- Python `f"{n:03d}"`: the decimal numeral left-padded with zeros to at
least three characters. -/
def pad3 (n : Nat) : List Char :=
  List.replicate (3 - (natChars n).length) '0' ++ natChars n

/-- The archive entry name `f"image_{i+1:03d}.jpg"` (src/app.py line 115),
applied to the 1-based index. -/
def filename (n : Nat) : List Char := "image_".data ++ pad3 n ++ ".jpg".data

/-- One iteration of the batch loop (src/app.py lines 102-122) on the entry
with 0-based index `i`.  The `continue` on a failed URL validation
(line 107) jumps to the next iteration, skipping the counter updates AND
the `progress_bar.progress((i + 1) / total)` call at line 122, so the state
is returned unchanged.  In every other case the progress call runs after
the `try`/`except` body. -/
def stepEntry (env : PILEnv) (total : Nat) (st : BatchState) (i : Nat) :
    Entry → BatchState
  | ⟨cell, net⟩ =>
    if fetchable cell then
      match net with
      | FetchOutcome.ok content =>
          { st with
              valid_count := st.valid_count + 1
              archive := st.archive ++ [(filename (i + 1), (process_image env content).out)]
              fetchLog := st.fetchLog ++ [i]
              progressLog := st.progressLog ++ [((i : ℚ) + 1) / (total : ℚ)] }
      | FetchOutcome.httpError =>
          { st with
              error_count := st.error_count + 1
              fetchLog := st.fetchLog ++ [i]
              progressLog := st.progressLog ++ [((i : ℚ) + 1) / (total : ℚ)] }
      | FetchOutcome.transportError =>
          { st with
              error_count := st.error_count + 1
              fetchLog := st.fetchLog ++ [i]
              progressLog := st.progressLog ++ [((i : ℚ) + 1) / (total : ℚ)] }
    else st

/-- The batch loop from entry index `i` on, starting in state `st`
(`for i, url in enumerate(links): ...`). -/
def runLoop (env : PILEnv) (total : Nat) : BatchState → Nat → List Entry → BatchState
  | st, _, [] => st
  | st, i, e :: rest => runLoop env total (stepEntry env total st i e) (i + 1) rest

/-- The whole batch run (src/app.py lines 92-122): `total = len(links)`,
counters start at zero, the loop walks the entries in order. -/
def runBatch (env : PILEnv) (links : List Entry) : BatchState :=
  runLoop env links.length initialState 0 links

/-- Number of entries that pass validation and fetch successfully. -/
def countOk : List Entry → Nat
  | [] => 0
  | e :: rest =>
    (if fetchable e.cell then
       match e.net with
       | FetchOutcome.ok _ => 1
       | _ => 0
     else 0) + countOk rest

/-- Number of entries that pass validation but fail to fetch. -/
def countErr : List Entry → Nat
  | [] => 0
  | e :: rest =>
    (if fetchable e.cell then
       match e.net with
       | FetchOutcome.ok _ => 0
       | _ => 1
     else 0) + countErr rest

/-- Number of entries that fail URL validation (the `continue` path). -/
def countInvalid : List Entry → Nat
  | [] => 0
  | e :: rest => (if fetchable e.cell then 0 else 1) + countInvalid rest

/-- The archive entries the loop inserts, for entries starting at 0-based
index `i`: one entry named `filename (index + 1)` with the normalized
payload, per validated entry that fetches successfully. -/
def archiveSpec (env : PILEnv) : Nat → List Entry → List (List Char × ByteSeq)
  | _, [] => []
  | i, e :: rest =>
    (if fetchable e.cell then
       match e.net with
       | FetchOutcome.ok content => [(filename (i + 1), (process_image env content).out)]
       | _ => []
     else []) ++ archiveSpec env (i + 1) rest

/-- The progress fractions the loop reports, for entries starting at
0-based index `i`: one report `(index + 1) / total` per entry that passes
validation (the `continue` path skips the report). -/
def progressSpec (total : Nat) : Nat → List Entry → List ℚ
  | _, [] => []
  | i, e :: rest =>
    (if fetchable e.cell then [((i : ℚ) + 1) / (total : ℚ)] else []) ++
      progressSpec total (i + 1) rest

/-- The 0-based indices of entries for which a network request is issued:
exactly the entries that pass validation. -/
def fetchSpec : Nat → List Entry → List Nat
  | _, [] => []
  | i, e :: rest =>
    (if fetchable e.cell then [i] else []) ++ fetchSpec (i + 1) rest

/-- Concrete oracle: decoding always fails (bytes that PIL cannot open),
every other PIL call would succeed, the encoder emits nothing. -/
def envNull : PILEnv := ⟨fun _ => none, true, true, true, fun _ => []⟩

/-- Concrete oracle: every byte string decodes to a 19x19 RGB image and
every PIL call succeeds; the encoder exposes the final dimensions. -/
def env19 : PILEnv :=
  ⟨fun _ => some ⟨19, 19, Mode.RGB⟩, true, true, true, fun img => [img.width, img.height]⟩

/-- Concrete oracle: every byte string decodes to a 1200x1000 image (both
sides at or above the minimum), every PIL call succeeds. -/
def envBig : PILEnv :=
  ⟨fun _ => some ⟨1200, 1000, Mode.other⟩, true, true, true, fun img => [img.width, img.height]⟩

/-! ## Characterization of the loop -/

/-- Running the loop from any state appends/adds exactly what the spec
functions describe, entry by entry. -/
theorem runLoop_eq (env : PILEnv) (total : Nat) :
    ∀ (links : List Entry) (i : Nat) (st : BatchState),
    runLoop env total st i links =
      { valid_count := st.valid_count + countOk links
        error_count := st.error_count + countErr links
        archive := st.archive ++ archiveSpec env i links
        progressLog := st.progressLog ++ progressSpec total i links
        fetchLog := st.fetchLog ++ fetchSpec i links } := by
  intro links
  induction links with
  | nil =>
    intro i st
    simp [runLoop, countOk, countErr, archiveSpec, progressSpec, fetchSpec]
  | cons e rest ih =>
    intro i st
    rcases e with ⟨cell, net⟩
    show runLoop env total (stepEntry env total st i ⟨cell, net⟩) (i + 1) rest = _
    rw [ih]
    cases hf : fetchable cell
    · simp [stepEntry, hf, countOk, countErr, archiveSpec, progressSpec, fetchSpec]
    · cases net <;>
        simp [stepEntry, hf, countOk, countErr, archiveSpec, progressSpec, fetchSpec,
          Nat.add_assoc, List.append_assoc]

/-- Each entry is validated into exactly one of the three classes. -/
theorem countOk_add_countErr_add_countInvalid (links : List Entry) :
    countOk links + countErr links + countInvalid links = links.length := by
  induction links with
  | nil => rfl
  | cons e rest ih =>
    rcases e with ⟨cell, net⟩
    cases hf : fetchable cell <;> cases net <;>
      simp [countOk, countErr, countInvalid, hf] <;> omega

/-- When the `try:` body of `process_image` raises (no image reached the
encoder), the `except:` returns the original input bytes. -/
theorem process_image_fallback (env : PILEnv) (image_bytes : ByteSeq)
    (h : (process_image env image_bytes).finalImg = none) :
    (process_image env image_bytes).out = image_bytes := by
  unfold process_image at h ⊢
  cases ha : attemptNormalize env image_bytes with
  | none => rfl
  | some v =>
    rw [ha] at h
    rcases v with ⟨o, r, s, img⟩
    simp at h

/-- On an image at or above the minimum dimension on both axes, the `try:`
body takes the pass-through branch: no resize, no filter, just the encode
of the (possibly mode-converted) image. -/
theorem normalizeDecoded_large (env : PILEnv) (opened : DecodedImage)
    (hw : min_dimension ≤ opened.width) (hh : min_dimension ≤ opened.height)
    (henc : env.encodeOk = true) :
    normalizeDecoded env opened =
      some (env.encode (if opened.mode = Mode.RGBA ∨ opened.mode = Mode.P then
                          convertRGB opened else opened),
            false, false,
            (if opened.mode = Mode.RGBA ∨ opened.mode = Mode.P then
               convertRGB opened else opened)) := by
  unfold normalizeDecoded
  by_cases hm : opened.mode = Mode.RGBA ∨ opened.mode = Mode.P
  · have hcond : ¬((convertRGB opened).width < min_dimension ∨
        (convertRGB opened).height < min_dimension) := by
      simp only [convertRGB]
      omega
    simp [hm, hcond, henc]
  · have hcond : ¬(opened.width < min_dimension ∨ opened.height < min_dimension) := by
      omega
    simp [hm, hcond, henc]

/-! ## Filename arithmetic -/

/-- Every produced decimal digit is below 10. -/
theorem natDigitsAux_lt : ∀ (fuel n : Nat), ∀ d ∈ natDigitsAux fuel n, d < 10 := by
  intro fuel
  induction fuel with
  | zero =>
    intro n d hd
    cases n <;> simp [natDigitsAux] at hd
  | succ fuel ih =>
    intro n d hd
    cases n with
    | zero => simp [natDigitsAux] at hd
    | succ m =>
      simp only [natDigitsAux, List.mem_cons] at hd
      rcases hd with h | h
      · subst h; exact Nat.mod_lt _ (by omega)
      · exact ih _ _ h

/-- With enough fuel, `unDigits` recovers the number from its digits. -/
theorem unDigits_natDigitsAux : ∀ (fuel n : Nat), n ≤ fuel →
    unDigits (natDigitsAux fuel n) = n := by
  intro fuel
  induction fuel with
  | zero =>
    intro n h
    have : n = 0 := by omega
    subst this; rfl
  | succ fuel ih =>
    intro n h
    cases n with
    | zero => rfl
    | succ m =>
      simp only [natDigitsAux, unDigits]
      rw [ih ((m + 1) / 10) (by omega)]
      omega

theorem unDigits_natDigits (n : Nat) : unDigits (natDigits n) = n :=
  unDigits_natDigitsAux n n (Nat.le_refl n)

/-- The code-point value of a decimal digit character. -/
theorem digitChar_toNat (d : Nat) (h : d < 10) : (digitChar d).toNat = 48 + d := by
  interval_cases d <;> rfl

/-- Left inverse of `pad3`: read the decimal value back off the characters.
Leading zeros (little-endian: trailing zeros) do not change the value. -/
def unpad (cs : List Char) : Nat :=
  unDigits ((cs.map (fun c => c.toNat - 48)).reverse)

theorem unDigits_replicate_zero (k : Nat) : unDigits (List.replicate k 0) = 0 := by
  induction k with
  | zero => rfl
  | succ k ih => simp [List.replicate, unDigits, ih]

theorem unDigits_append_zeros (l : List Nat) (k : Nat) :
    unDigits (l ++ List.replicate k 0) = unDigits l := by
  induction l with
  | nil => simp [unDigits, unDigits_replicate_zero]
  | cons d rest ih => simp [unDigits, ih]

theorem unpad_pad3 (n : Nat) : unpad (pad3 n) = n := by
  have hmap : ∀ (l : List Nat), (∀ d ∈ l, d < 10) →
      l.map ((fun c : Char => c.toNat - 48) ∘ digitChar) = l := by
    intro l
    induction l with
    | nil => intro _; rfl
    | cons d rest ih =>
      intro hl
      simp only [List.map_cons, Function.comp_apply]
      rw [digitChar_toNat d (hl d (List.mem_cons_self d rest)),
        ih (fun x hx => hl x (List.mem_cons_of_mem d hx))]
      simp
  have h0 : '0'.toNat - 48 = 0 := rfl
  unfold unpad pad3 natChars
  simp only [List.map_append, List.map_replicate, List.map_map, List.map_reverse,
    List.reverse_append, List.reverse_reverse, List.reverse_replicate, h0]
  rw [hmap (natDigits n) (natDigitsAux_lt n n), unDigits_append_zeros, unDigits_natDigits]

theorem pad3_injective : Function.Injective pad3 := by
  intro a b h
  have := congrArg unpad h
  rwa [unpad_pad3, unpad_pad3] at this

theorem filename_injective : Function.Injective filename := by
  intro a b h
  unfold filename at h
  rw [List.append_assoc, List.append_assoc] at h
  have h2 := List.append_cancel_left h
  have h3 := List.append_cancel_right h2
  exact pad3_injective h3

/-! ## Shape of the spec lists -/

/-- Every archive entry put in from index `i` on is named with a 1-based
index in the corresponding range. -/
theorem mem_archiveSpec_name (env : PILEnv) :
    ∀ (links : List Entry) (i : Nat) (p : List Char × ByteSeq),
      p ∈ archiveSpec env i links →
      ∃ j, i ≤ j ∧ j < i + links.length ∧ p.1 = filename (j + 1) := by
  intro links
  induction links with
  | nil => intro i p hp; simp [archiveSpec] at hp
  | cons e rest ih =>
    intro i p hp
    rcases e with ⟨cell, net⟩
    simp only [archiveSpec, List.mem_append] at hp
    rcases hp with hp | hp
    · cases hf : fetchable cell
      · rw [hf] at hp; simp at hp
      · rw [hf] at hp
        cases net with
        | ok content =>
          simp only [if_true, List.mem_singleton] at hp
          refine ⟨i, Nat.le_refl i, by simp, ?_⟩
          rw [hp]
        | httpError => simp at hp
        | transportError => simp at hp
    · rcases ih (i + 1) p hp with ⟨j, hj1, hj2, hj3⟩
      refine ⟨j, by omega, ?_, hj3⟩
      simp only [List.length_cons]
      omega

/-- The archive names inserted from index `i` on are pairwise distinct. -/
theorem archiveSpec_names_nodup (env : PILEnv) :
    ∀ (links : List Entry) (i : Nat),
      ((archiveSpec env i links).map Prod.fst).Nodup := by
  intro links
  induction links with
  | nil => intro i; simp [archiveSpec]
  | cons e rest ih =>
    intro i
    rcases e with ⟨cell, net⟩
    cases hf : fetchable cell
    · simpa [archiveSpec, hf] using ih (i + 1)
    · cases net with
      | ok content =>
        simp only [archiveSpec, hf, if_true, List.map_append, List.map_cons, List.map_nil]
        refine List.Nodup.append ?_ (ih (i + 1)) ?_
        · simp
        · intro x hx hx2
          simp only [List.mem_singleton] at hx
          subst hx
          rcases List.mem_map.mp hx2 with ⟨p, hp, hp2⟩
          rcases mem_archiveSpec_name env rest (i + 1) p hp with ⟨j, hj1, _, hj3⟩
          rw [hj3] at hp2
          have := filename_injective hp2
          omega
      | httpError => simpa [archiveSpec, hf] using ih (i + 1)
      | transportError => simpa [archiveSpec, hf] using ih (i + 1)

/-- One archive entry per validated, successfully fetched input entry. -/
theorem archiveSpec_length (env : PILEnv) :
    ∀ (links : List Entry) (i : Nat),
      (archiveSpec env i links).length = countOk links := by
  intro links
  induction links with
  | nil => intro i; rfl
  | cons e rest ih =>
    intro i
    rcases e with ⟨cell, net⟩
    cases hf : fetchable cell <;> cases net <;>
      simp [archiveSpec, countOk, hf, ih (i + 1), Nat.add_comm]

/-- Every reported progress fraction reported from index `i` on is
`(j + 1) / total` for the 0-based index `j` of some entry. -/
theorem mem_progressSpec (total : Nat) :
    ∀ (links : List Entry) (i : Nat) (q : ℚ), q ∈ progressSpec total i links →
      ∃ j, i ≤ j ∧ j < i + links.length ∧ q = ((j : ℚ) + 1) / (total : ℚ) := by
  intro links
  induction links with
  | nil => intro i q hq; simp [progressSpec] at hq
  | cons e rest ih =>
    intro i q hq
    rcases e with ⟨cell, net⟩
    simp only [progressSpec, List.mem_append] at hq
    rcases hq with hq | hq
    · cases hf : fetchable cell
      · rw [hf] at hq; simp at hq
      · rw [hf] at hq
        simp only [if_true, List.mem_singleton] at hq
        exact ⟨i, Nat.le_refl i, by simp, hq⟩
    · rcases ih (i + 1) q hq with ⟨j, hj1, hj2, hj3⟩
      refine ⟨j, by omega, ?_, hj3⟩
      simp only [List.length_cons]
      omega

/-- The reported progress fractions are strictly increasing. -/
theorem progressSpec_pairwise (total : Nat) (htotal : 0 < total) :
    ∀ (links : List Entry) (i : Nat),
      (progressSpec total i links).Pairwise (· < ·) := by
  intro links
  induction links with
  | nil => intro i; simp [progressSpec]
  | cons e rest ih =>
    intro i
    rcases e with ⟨cell, net⟩
    cases hf : fetchable cell
    · simpa [progressSpec, hf] using ih (i + 1)
    · simp only [progressSpec, hf, if_true, List.singleton_append, List.pairwise_cons]
      refine ⟨?_, ih (i + 1)⟩
      intro q hq
      rcases mem_progressSpec total rest (i + 1) q hq with ⟨j, hj1, _, hj3⟩
      rw [hj3]
      rw [div_lt_div_iff_of_pos_right (by exact_mod_cast htotal)]
      have : (i : ℚ) < (j : ℚ) := by exact_mod_cast (by omega : i < j)
      linarith

/-- Every reported progress fraction lies in `(0, 1]` once the denominator
covers all indices (as it does in `runBatch`, where `total` is the input
length). -/
theorem progressSpec_bounds (total : Nat) :
    ∀ (links : List Entry) (i : Nat), i + links.length ≤ total →
      ∀ q ∈ progressSpec total i links, 0 < q ∧ q ≤ 1 := by
  intro links i hle q hq
  rcases mem_progressSpec total links i q hq with ⟨j, _, hj2, hj3⟩
  have hjt : j + 1 ≤ total := by omega
  have htotal : 0 < total := by omega
  have htq : (0 : ℚ) < (total : ℚ) := by exact_mod_cast htotal
  constructor
  · rw [hj3]
    apply div_pos _ htq
    positivity
  · rw [hj3, div_le_one htq]
    exact_mod_cast hjt

/-- Every index in the fetch log from index `i` on belongs to an entry that
passed validation. -/
theorem mem_fetchSpec :
    ∀ (links : List Entry) (i j : Nat), j ∈ fetchSpec i links →
      ∃ k : Fin links.length, j = i + k.val ∧ fetchable (links.get k).cell = true := by
  intro links
  induction links with
  | nil => intro i j hj; simp [fetchSpec] at hj
  | cons e rest ih =>
    intro i j hj
    simp only [fetchSpec, List.mem_append] at hj
    rcases hj with hj | hj
    · cases hf : fetchable e.cell
      · rw [hf] at hj; simp at hj
      · rw [hf] at hj
        simp only [if_true, List.mem_singleton] at hj
        exact ⟨⟨0, by simp⟩, by simp [hj], by simpa using hf⟩
    · rcases ih (i + 1) j hj with ⟨k, hk1, hk2⟩
      refine ⟨⟨k.val + 1, by simp⟩, ?_, by simpa using hk2⟩
      simp only []
      omega

/-! ## Claims -/

/-- C1 (counterexample): the claim says `succeeded + failed = total` with
entries failing URL validation counted as failed.  On a one-entry batch
whose cell is not a string, the `continue` path increments neither counter,
so the sum is 0 while the total is 1. -/
theorem c1_counterexample :
    ¬ ((runBatch envNull [⟨Cell.nonStr, FetchOutcome.transportError⟩]).valid_count
        + (runBatch envNull [⟨Cell.nonStr, FetchOutcome.transportError⟩]).error_count
        = ([⟨Cell.nonStr, FetchOutcome.transportError⟩] : List Entry).length) := by
  decide

/-- C1 (amended): after the batch loop, `succeeded + failed` equals the
number of entries that passed URL validation; adding the number of
validation-skipped entries recovers the total, so each entry is accounted
exactly once across the three classes, but validation failures land in
neither counter. -/
theorem c1_counters_account_validated_entries (env : PILEnv) (links : List Entry) :
    (runBatch env links).valid_count + (runBatch env links).error_count
      + countInvalid links = links.length := by
  have h1 : (runBatch env links).valid_count = countOk links := by
    unfold runBatch; rw [runLoop_eq]; simp [initialState]
  have h2 : (runBatch env links).error_count = countErr links := by
    unfold runBatch; rw [runLoop_eq]; simp [initialState]
  rw [h1, h2]
  exact countOk_add_countErr_add_countInvalid links

/-- C2 (code bug): on a 19x19 image, the resize path produces a 999x999
image: `1000 / 19` and `19 * scale` are binary64 operations, and
`int(19 * (1000 / 19))` truncates the slightly-too-small product to 999.
The smaller side of the result is therefore strictly below `min_dimension`,
against the code's own stated intent ("make the SMALLEST side at least
1000") and the claim's "smaller side is exactly 1000". -/
theorem c2_resize_misses_min_dimension_on_19px :
    (process_image env19 [0]).finalImg = some ⟨999, 999, Mode.RGB⟩ ∧
    (process_image env19 [0]).resized = true ∧
    999 < min_dimension := by
  refine ⟨by decide, by decide, by decide⟩

/-- C3: when the decoded image is at least `min_dimension` on both axes
(and the encoder succeeds), `process_image` performs no resize and no
unsharp-mask pass: the output is just the re-encode of the (possibly
mode-converted) decoded image. -/
theorem c3_passthrough_above_min (env : PILEnv) (image_bytes : ByteSeq)
    (img : DecodedImage)
    (hdec : env.decode image_bytes = some img)
    (hw : min_dimension ≤ img.width) (hh : min_dimension ≤ img.height)
    (henc : env.encodeOk = true) :
    (process_image env image_bytes).resized = false ∧
    (process_image env image_bytes).sharpened = false ∧
    (process_image env image_bytes).out =
      env.encode (if img.mode = Mode.RGBA ∨ img.mode = Mode.P then convertRGB img
                  else img) := by
  unfold process_image attemptNormalize
  rw [hdec]
  simp only [normalizeDecoded_large env img hw hh henc]
  exact ⟨trivial, trivial, trivial⟩

/-- C3 witness: a 1200x1000 image is passed through re-encoded, untouched
by resize and sharpening. -/
theorem c3_witness :
    (process_image envBig [3]).resized = false ∧
    (process_image envBig [3]).sharpened = false ∧
    (process_image envBig [3]).out =
      envBig.encode (if (⟨1200, 1000, Mode.other⟩ : DecodedImage).mode = Mode.RGBA ∨
                        (⟨1200, 1000, Mode.other⟩ : DecodedImage).mode = Mode.P then
                       convertRGB ⟨1200, 1000, Mode.other⟩
                     else ⟨1200, 1000, Mode.other⟩) :=
  c3_passthrough_above_min envBig [3] ⟨1200, 1000, Mode.other⟩ rfl (by decide) (by decide) rfl

/-- C4: `process_image` is a total function (the model of a function that
never raises), and when its `try:` body fails — no image reached the
encoder — the original bytes come back unchanged; the batch loop still
archives exactly those bytes under the entry's filename and still
increments the success counter. -/
theorem c4_normalization_failure_still_succeeds (env : PILEnv) (content : ByteSeq)
    (st : BatchState) (total i : Nat) (cell : Cell)
    (hfetch : fetchable cell = true)
    (hfall : (process_image env content).finalImg = none) :
    (process_image env content).out = content ∧
    (stepEntry env total st i ⟨cell, FetchOutcome.ok content⟩).valid_count
      = st.valid_count + 1 ∧
    (stepEntry env total st i ⟨cell, FetchOutcome.ok content⟩).archive
      = st.archive ++ [(filename (i + 1), content)] ∧
    (stepEntry env total st i ⟨cell, FetchOutcome.ok content⟩).error_count
      = st.error_count := by
  have hout := process_image_fallback env content hfall
  refine ⟨hout, ?_, ?_, ?_⟩ <;> simp [stepEntry, hfetch, hout]

/-- C4 witness: bytes that fail to decode are archived verbatim as a
success. -/
theorem c4_witness :
    (process_image envNull [7, 7]).out = [7, 7] ∧
    (stepEntry envNull 1 initialState 0
        ⟨Cell.str "http://a".data, FetchOutcome.ok [7, 7]⟩).valid_count
      = initialState.valid_count + 1 ∧
    (stepEntry envNull 1 initialState 0
        ⟨Cell.str "http://a".data, FetchOutcome.ok [7, 7]⟩).archive
      = initialState.archive ++ [(filename 1, [7, 7])] ∧
    (stepEntry envNull 1 initialState 0
        ⟨Cell.str "http://a".data, FetchOutcome.ok [7, 7]⟩).error_count
      = initialState.error_count :=
  c4_normalization_failure_still_succeeds envNull [7, 7] initialState 1 0
    (Cell.str "http://a".data) (by decide) (by decide)

/-- C5: a validated entry whose fetch fails (non-2xx status or transport
error) increments the failure counter, leaves the success counter and the
archive untouched, still reports progress, and the loop simply continues
with the next entries (the exception is caught at the item boundary). -/
theorem c5_fetch_failure_counted (env : PILEnv) (total : Nat) (st : BatchState)
    (i : Nat) (cell : Cell) (net : FetchOutcome) (rest : List Entry)
    (hfetch : fetchable cell = true)
    (hfail : net = FetchOutcome.httpError ∨ net = FetchOutcome.transportError) :
    (stepEntry env total st i ⟨cell, net⟩).error_count = st.error_count + 1 ∧
    (stepEntry env total st i ⟨cell, net⟩).valid_count = st.valid_count ∧
    (stepEntry env total st i ⟨cell, net⟩).archive = st.archive ∧
    (stepEntry env total st i ⟨cell, net⟩).progressLog
      = st.progressLog ++ [((i : ℚ) + 1) / (total : ℚ)] ∧
    runLoop env total st i (⟨cell, net⟩ :: rest)
      = runLoop env total (stepEntry env total st i ⟨cell, net⟩) (i + 1) rest := by
  rcases hfail with h | h <;> subst h <;>
    exact ⟨by simp [stepEntry, hfetch], by simp [stepEntry, hfetch],
      by simp [stepEntry, hfetch], by simp [stepEntry, hfetch], rfl⟩

/-- C5 witness at a concrete 404. -/
theorem c5_witness :
    (stepEntry envNull 1 initialState 0
        ⟨Cell.str "http://gone".data, FetchOutcome.httpError⟩).error_count
      = initialState.error_count + 1 ∧
    (stepEntry envNull 1 initialState 0
        ⟨Cell.str "http://gone".data, FetchOutcome.httpError⟩).valid_count
      = initialState.valid_count ∧
    (stepEntry envNull 1 initialState 0
        ⟨Cell.str "http://gone".data, FetchOutcome.httpError⟩).archive
      = initialState.archive ∧
    (stepEntry envNull 1 initialState 0
        ⟨Cell.str "http://gone".data, FetchOutcome.httpError⟩).progressLog
      = initialState.progressLog ++ [(((0 : Nat) : ℚ) + 1) / ((1 : Nat) : ℚ)] ∧
    runLoop envNull 1 initialState 0
        [⟨Cell.str "http://gone".data, FetchOutcome.httpError⟩]
      = runLoop envNull 1
          (stepEntry envNull 1 initialState 0
            ⟨Cell.str "http://gone".data, FetchOutcome.httpError⟩) 1 [] :=
  c5_fetch_failure_counted envNull 1 initialState 0 (Cell.str "http://gone".data)
    FetchOutcome.httpError [] (by decide) (Or.inl rfl)

/-- C6: a cell is treated as fetchable exactly when it is a string whose
code points start with `http:` or `https:` verbatim — equivalently, when
the string literally decomposes as one of those prefixes followed by an
arbitrary remainder.  No trimming or further checking occurs, so a leading
space or an upper-case scheme fails the test. -/
theorem c6_validator_characterization (c : Cell) :
    fetchable c = true ↔
      ∃ s r, c = Cell.str s ∧ (s = "http:".data ++ r ∨ s = "https:".data ++ r) := by
  cases c with
  | nonStr =>
    simp only [fetchable, Bool.false_eq_true, false_iff]
    rintro ⟨s, r, h, _⟩
    exact Cell.noConfusion h
  | str s =>
    simp only [fetchable, Bool.or_eq_true]
    constructor
    · intro h
      rcases h with h | h
      · rcases List.isPrefixOf_iff_prefix.mp h with ⟨r, hr⟩
        exact ⟨s, r, rfl, Or.inl hr.symm⟩
      · rcases List.isPrefixOf_iff_prefix.mp h with ⟨r, hr⟩
        exact ⟨s, r, rfl, Or.inr hr.symm⟩
    · rintro ⟨s2, r, heq, hpre⟩
      cases heq
      rcases hpre with h | h
      · exact Or.inl (List.isPrefixOf_iff_prefix.mpr ⟨r, h.symm⟩)
      · exact Or.inr (List.isPrefixOf_iff_prefix.mpr ⟨r, h.symm⟩)

/-- C6 witness: a concrete https URL is fetchable by the characterization. -/
theorem c6_witness : fetchable (Cell.str "https://e.com/i.png".data) = true :=
  (c6_validator_characterization (Cell.str "https://e.com/i.png".data)).mpr
    ⟨"https://e.com/i.png".data, "//e.com/i.png".data, rfl, Or.inr (by decide)⟩

/-- C7: an entry that fails URL validation is never fetched: its index
does not appear in the log of entries for which `requests.get` ran. -/
theorem c7_invalid_entries_never_fetched (env : PILEnv) (links : List Entry)
    (k : Fin links.length) (hinv : fetchable (links.get k).cell = false) :
    k.val ∉ (runBatch env links).fetchLog := by
  intro hmem
  have hlog : (runBatch env links).fetchLog = fetchSpec 0 links := by
    unfold runBatch; rw [runLoop_eq]; simp [initialState]
  rw [hlog] at hmem
  rcases mem_fetchSpec links 0 k.val hmem with ⟨k2, hk1, hk2⟩
  have hk : k2 = k := Fin.ext (by omega)
  rw [hk] at hk2
  rw [hk2] at hinv
  exact Bool.noConfusion hinv

/-- C7 witness: the single non-string entry is not fetched. -/
theorem c7_witness :
    (0 : Nat) ∉ (runBatch envNull [⟨Cell.nonStr, FetchOutcome.ok []⟩]).fetchLog :=
  c7_invalid_entries_never_fetched envNull [⟨Cell.nonStr, FetchOutcome.ok []⟩]
    ⟨0, by decide⟩ (by decide)

/-- C8: the archive built by the batch is exactly the per-entry spec list;
its entry names are pairwise distinct; its size equals the success counter;
and every entry is named `filename (j + 1)` (that is,
`image_{j+1:03d}.jpg`) for the 0-based index `j` of its input entry. -/
theorem c8_archive_names_unique (env : PILEnv) (links : List Entry) :
    (runBatch env links).archive = archiveSpec env 0 links ∧
    ((runBatch env links).archive.map Prod.fst).Nodup ∧
    (runBatch env links).archive.length = (runBatch env links).valid_count ∧
    ∀ p ∈ (runBatch env links).archive,
      ∃ j, j < links.length ∧ p.1 = filename (j + 1) := by
  have harch : (runBatch env links).archive = archiveSpec env 0 links := by
    unfold runBatch; rw [runLoop_eq]; simp [initialState]
  have hvalid : (runBatch env links).valid_count = countOk links := by
    unfold runBatch; rw [runLoop_eq]; simp [initialState]
  refine ⟨harch, ?_, ?_, ?_⟩
  · rw [harch]
    exact archiveSpec_names_nodup env links 0
  · rw [harch, hvalid]
    exact archiveSpec_length env links 0
  · intro p hp
    rw [harch] at hp
    rcases mem_archiveSpec_name env links 0 p hp with ⟨j, _, hj2, hj3⟩
    exact ⟨j, by omega, hj3⟩

/-- C8 witness: the only archive entry of a one-entry batch carries the
1-based zero-padded name. -/
theorem c8_witness :
    ∃ j, j < ([⟨Cell.str "http://a".data, FetchOutcome.ok [5]⟩] : List Entry).length ∧
      ((filename 1, ([5] : ByteSeq)) : List Char × ByteSeq).1 = filename (j + 1) :=
  (c8_archive_names_unique envNull [⟨Cell.str "http://a".data, FetchOutcome.ok [5]⟩]).2.2.2
    (filename 1, [5]) (by decide)

/-- C9 (counterexample): the claim says progress is reported after every
item regardless of outcome, reaching 1 after the last.  A nonempty batch
whose single entry fails URL validation produces no progress report at all:
the `continue` jumps past `progress_bar.progress`. -/
theorem c9_counterexample :
    ([⟨Cell.nonStr, FetchOutcome.ok []⟩] : List Entry).length = 1 ∧
    (runBatch envNull [⟨Cell.nonStr, FetchOutcome.ok []⟩]).progressLog = [] := by
  exact ⟨rfl, rfl⟩

/-- C9 (amended): progress is reported once per entry that passes URL
validation — the fraction `(i + 1) / total` for that entry's 0-based index
`i` — and the reported fractions are strictly increasing and lie in
`(0, 1]`; entries skipped by validation produce no report. -/
theorem c9_progress_characterization (env : PILEnv) (links : List Entry) :
    (runBatch env links).progressLog = progressSpec links.length 0 links ∧
    (runBatch env links).progressLog.Pairwise (· < ·) ∧
    ∀ q ∈ (runBatch env links).progressLog, 0 < q ∧ q ≤ 1 := by
  have hlog : (runBatch env links).progressLog = progressSpec links.length 0 links := by
    unfold runBatch; rw [runLoop_eq]; simp [initialState]
  refine ⟨hlog, ?_, ?_⟩
  · rw [hlog]
    cases links with
    | nil => simp [progressSpec]
    | cons e rest =>
      exact progressSpec_pairwise (e :: rest).length (by simp) (e :: rest) 0
  · rw [hlog]
    exact progressSpec_bounds links.length links 0 (by omega)

/-- C9 witness: on a batch with one validated (but 404) entry the reported
fraction is 1, inside `(0, 1]`. -/
theorem c9_witness : (0 : ℚ) < 1 ∧ (1 : ℚ) ≤ 1 := by
  have h := c9_progress_characterization envNull
    [⟨Cell.str "http:a".data, FetchOutcome.httpError⟩]
  have hf : fetchable (Cell.str "http:a".data) = true := by decide
  refine h.2.2 1 ?_
  rw [h.1]
  simp [progressSpec, hf]

/-- C10 (counterexample): the claim says the progress fraction still
advances for a validation-skipped entry.  In a two-entry batch whose first
entry is a non-string, only one progress report is emitted (for the second
entry); the counters do stay `0`/`1` as the claim says. -/
theorem c10_counterexample :
    (runBatch envNull [⟨Cell.nonStr, FetchOutcome.ok []⟩,
        ⟨Cell.str "http:b".data, FetchOutcome.httpError⟩]).valid_count = 0 ∧
    (runBatch envNull [⟨Cell.nonStr, FetchOutcome.ok []⟩,
        ⟨Cell.str "http:b".data, FetchOutcome.httpError⟩]).error_count = 1 ∧
    (runBatch envNull [⟨Cell.nonStr, FetchOutcome.ok []⟩,
        ⟨Cell.str "http:b".data, FetchOutcome.httpError⟩]).progressLog.length = 1 := by
  refine ⟨by decide, by decide, by decide⟩

/-- C10 (amended): an entry that fails URL validation changes nothing at
all — neither counter, nor the archive, nor the progress log (the progress
fraction does NOT advance for it); consequently, over the whole batch,
`succeeded + failed` equals total minus the number of validation-skipped
entries. -/
theorem c10_skip_is_a_no_op (env : PILEnv) (total : Nat) (st : BatchState)
    (i : Nat) (cell : Cell) (net : FetchOutcome) (links : List Entry)
    (h : fetchable cell = false) :
    stepEntry env total st i ⟨cell, net⟩ = st ∧
    (runBatch env links).valid_count + (runBatch env links).error_count
      = links.length - countInvalid links := by
  constructor
  · simp [stepEntry, h]
  · have hsum := countOk_add_countErr_add_countInvalid links
    have h1 : (runBatch env links).valid_count = countOk links := by
      unfold runBatch; rw [runLoop_eq]; simp [initialState]
    have h2 : (runBatch env links).error_count = countErr links := by
      unfold runBatch; rw [runLoop_eq]; simp [initialState]
    omega

/-- C10 witness at a concrete skipped entry and the empty batch. -/
theorem c10_witness :
    stepEntry envNull 1 initialState 0 ⟨Cell.nonStr, FetchOutcome.ok []⟩
      = initialState ∧
    (runBatch envNull ([] : List Entry)).valid_count
        + (runBatch envNull ([] : List Entry)).error_count
      = ([] : List Entry).length - countInvalid [] :=
  c10_skip_is_a_no_op envNull 1 initialState 0 Cell.nonStr (FetchOutcome.ok []) []
    (by decide)

/-! ## Concrete evaluations of the embedded definitions -/

-- sanity: the dimension arithmetic on a 500x800 image (spec scenario):
-- scale = 2.0 exactly, 500 * 2.0 = 1000, 800 * 2.0 = 1600
example : scaled_dim 500 (fl53 ⟨1000, 500⟩) = 1000 := by decide
example : scaled_dim 800 (fl53 ⟨1000, 500⟩) = 1600 := by decide
-- the failing case behind claim C2: smaller side 19 lands at 999, not 1000
example : scaled_dim 19 (fl53 ⟨1000, 19⟩) = 999 := by decide
-- sanity: validator on concrete cells
example : fetchable (Cell.str "https://x.org/a.jpg".data) = true := by decide
example : fetchable (Cell.str " http://x.org".data) = false := by decide
example : fetchable (Cell.str "HTTP://x.org".data) = false := by decide
example : fetchable Cell.nonStr = false := by decide
-- sanity: filenames
example : filename 1 = "image_001.jpg".data := by decide
example : filename 12 = "image_012.jpg".data := by decide
example : filename 123 = "image_123.jpg".data := by decide
example : filename 1234 = "image_1234.jpg".data := by decide
